import Mathlib

/-!
# MosaicMaster — verification of the live-stream core specification

A shallow embedding of the MosaicMaster repository's client-side JavaScript
(the video-editor utilities, the progress WebSocket client, and the universal
fetch interceptor) together with a model of the live-stream core
(StreamSession registry, RecoveryController, HLSRelay, ProgressBus) that the
specification describes.  The client-side code is embedded directly from the
sources under `static/`; the server-side stream core is not part of the
source tree (only its HTML/JS callers are), so it is modelled from the
specification's own words, as flagged on each such definition.

JavaScript strings are embedded as `List Char`; non-negative integer
quantities (second counts, retry counters, process ids) as `Nat`.
-/

namespace Mosaic

/-! ## Time formatting (static/js/videoeditor/core/utils.js 7-31)

`VideoEditorUtils.formatTime` renders a second count as `HH:MM:SS` with each
field zero-padded to two digits via `String(n).padStart(2, '0')`;
`VideoEditorUtils.parseTime` splits on `':'` and folds the fields with
`parseInt(part, 10)`.  The same pair appears verbatim in `TimerModule`
(part_002 205-229) and in the video-editor core (part_005 48-66).
The embedding works over `Nat`, the non-negative integer second counts the
round-trip claim quantifies over (the JS `isNaN` guard and `Math.max(0, s)`
clamp are identities there). -/

/-- Decimal digit character, `String(n)` for a single digit. -/
def digitChar (n : Nat) : Char := Char.ofNat (48 + n)

/-- Decimal rendering of a natural number, fuelled so that every definition
in this development is structurally recursive (and hence kernel-evaluable).
`natDigitsAux fuel n` is the digit string of `n` whenever `n < 10 ^ fuel`. -/
def natDigitsAux : Nat → Nat → List Char
  | 0, _ => []
  | fuel + 1, n =>
    if n < 10 then [digitChar n]
    else natDigitsAux fuel (n / 10) ++ [digitChar (n % 10)]

/-- Rendering `String(n)` of a natural number `n` (JS `Number.prototype.toString`). -/
def natToString (n : Nat) : List Char := natDigitsAux (n + 1) n

/-- Zero padding `str.padStart(2, '0')`. -/
def pad2 (l : List Char) : List Char := List.replicate (2 - l.length) '0' ++ l

/-- The function `VideoEditorUtils.formatTime` on a non-negative integer second count:
`hrs = ⌊s/3600⌋`, `mins = ⌊(s % 3600)/60⌋`, `secs = ⌊s % 60⌋`, each rendered
with `padStart(2, '0')` and joined with `':'`. -/
def formatTime (s : Nat) : List Char :=
  pad2 (natToString (s / 3600)) ++ ':' ::
    (pad2 (natToString (s % 3600 / 60)) ++ ':' :: pad2 (natToString (s % 60)))

/-- Numeric value of a digit character, the digit part of `parseInt`. -/
def digitVal (c : Char) : Nat := c.toNat - 48

/-- Parsing `parseInt(part, 10)` of an all-digit field: left fold of the digits. -/
def parseNat (l : List Char) : Nat := l.foldl (fun acc c => acc * 10 + digitVal c) 0

/-- Splitting `timeStr.split(':')`: splits a character list at every `':'`. -/
def splitOnColon : List Char → List (List Char)
  | [] => [[]]
  | c :: rest =>
    if c = ':' then [] :: splitOnColon rest
    else
      match splitOnColon rest with
      | [] => [[c]]
      | p :: ps => (c :: p) :: ps

/-- The function `VideoEditorUtils.parseTime`: three colon-separated fields are
`h*3600 + m*60 + s`, two are `m*60 + s`, otherwise the first field alone
(`parts[0] || 0`; the empty string parses to `0`, matching the
`if (!timeStr) return 0` guard). -/
def parseTime (l : List Char) : Nat :=
  match splitOnColon l with
  | [a, b, c] => parseNat a * 3600 + parseNat b * 60 + parseNat c
  | [a, b] => parseNat a * 60 + parseNat b
  | a :: _ => parseNat a
  | [] => 0

/-! ### Round-trip lemmas -/

theorem parseNat_foldl (l : List Char) (a : Nat) :
    l.foldl (fun acc c => acc * 10 + digitVal c) a =
      a * 10 ^ l.length + parseNat l := by
  induction l generalizing a with
  | nil =>
    simp only [List.foldl_nil, List.length_nil, pow_zero, parseNat]
    omega
  | cons c t ih =>
    have h2 : parseNat (c :: t) = digitVal c * 10 ^ t.length + parseNat t := by
      have := ih (0 * 10 + digitVal c)
      simpa [parseNat] using this
    rw [List.foldl_cons, ih, h2, List.length_cons]
    ring

theorem parseNat_append (l₁ l₂ : List Char) :
    parseNat (l₁ ++ l₂) = parseNat l₁ * 10 ^ l₂.length + parseNat l₂ := by
  simp only [parseNat, List.foldl_append]
  rw [show (List.foldl (fun acc c => acc * 10 + digitVal c) 0 l₁) = parseNat l₁ from rfl,
    parseNat_foldl]
  rfl

theorem digitVal_digitChar {d : Nat} (h : d < 10) : digitVal (digitChar d) = d := by
  interval_cases d <;> decide

theorem parseNat_natDigitsAux {fuel n : Nat} (h : n < 10 ^ fuel) :
    parseNat (natDigitsAux fuel n) = n := by
  induction fuel generalizing n with
  | zero =>
    simp only [pow_zero, Nat.lt_one_iff] at h
    subst h
    rfl
  | succ fuel ih =>
    by_cases h10 : n < 10
    · simp [natDigitsAux, h10, parseNat, digitVal_digitChar h10]
    · have hlt : n / 10 < 10 ^ fuel := by
        rw [Nat.div_lt_iff_lt_mul (by norm_num)]
        calc n < 10 ^ (fuel + 1) := h
          _ = 10 ^ fuel * 10 := by ring
      simp only [natDigitsAux, h10, if_false, parseNat_append, ih hlt]
      have : parseNat [digitChar (n % 10)] = n % 10 := by
        simp [parseNat, digitVal_digitChar (Nat.mod_lt n (by norm_num))]
      rw [this]
      simp only [List.length_singleton, pow_one]
      omega

theorem parseNat_natToString (n : Nat) : parseNat (natToString n) = n :=
  parseNat_natDigitsAux
    (lt_of_lt_of_le (Nat.lt_pow_self (by norm_num) n)
      (Nat.pow_le_pow_right (by norm_num) (Nat.le_succ n)))

theorem parseNat_replicate_zero (k : Nat) : parseNat (List.replicate k '0') = 0 := by
  induction k with
  | zero => rfl
  | succ k ih =>
    have h : List.replicate (k + 1) '0' = List.replicate k '0' ++ ['0'] :=
      List.replicate_succ' k '0'
    rw [h, parseNat_append, ih]
    simp [parseNat, digitVal]

theorem parseNat_pad2 (l : List Char) : parseNat (pad2 l) = parseNat l := by
  rw [pad2, parseNat_append, parseNat_replicate_zero]
  ring

theorem digitChar_ne_colon {n : Nat} (h : n < 10) : digitChar n ≠ ':' := by
  interval_cases n <;> decide

theorem natDigitsAux_no_colon (fuel n : Nat) : ':' ∉ natDigitsAux fuel n := by
  induction fuel generalizing n with
  | zero => simp [natDigitsAux]
  | succ fuel ih =>
    by_cases h10 : n < 10
    · simp only [natDigitsAux, h10, if_true, List.mem_singleton]
      exact fun h => (digitChar_ne_colon h10) h.symm
    · simp only [natDigitsAux, h10, if_false, List.mem_append, List.mem_singleton]
      rintro (h | h)
      · exact ih _ h
      · exact (digitChar_ne_colon (Nat.mod_lt n (by norm_num))) h.symm

theorem pad2_no_colon {l : List Char} (h : ':' ∉ l) : ':' ∉ pad2 l := by
  simp only [pad2, List.mem_append, List.mem_replicate]
  rintro (⟨-, h0⟩ | hl)
  · exact absurd h0 (by decide)
  · exact h hl

theorem splitOnColon_no_colon {l : List Char} (h : ':' ∉ l) : splitOnColon l = [l] := by
  induction l with
  | nil => rfl
  | cons c t ih =>
    have hc : c ≠ ':' := fun hc => h (hc ▸ List.mem_cons_self c t)
    have ht : ':' ∉ t := fun ht => h (List.mem_cons_of_mem c ht)
    simp only [splitOnColon, if_neg hc, ih ht]

theorem splitOnColon_append_colon {a : List Char} (t : List Char) (h : ':' ∉ a) :
    splitOnColon (a ++ ':' :: t) = a :: splitOnColon t := by
  induction a with
  | nil => simp [splitOnColon]
  | cons c a' ih =>
    have hc : c ≠ ':' := fun hc => h (hc ▸ List.mem_cons_self c a')
    have ha' : ':' ∉ a' := fun ha' => h (List.mem_cons_of_mem c ha')
    simp only [List.cons_append, splitOnColon, if_neg hc]
    rw [show List.append a' (':' :: t) = a' ++ ':' :: t from rfl, ih ha']

/-- Claim C9: `parseTime (formatTime s) = s` for every natural number second
count `s`: `formatTime` renders `s` as a zero-padded colon-separated
`HH:MM:SS` string and `parseTime` folds the three fields back as
`h*3600 + m*60 + s`, so the two functions round-trip on non-negative
integer second counts. -/
theorem parseTime_formatTime_roundtrip (s : Nat) : parseTime (formatTime s) = s := by
  have hh : ':' ∉ pad2 (natToString (s / 3600)) :=
    pad2_no_colon (natDigitsAux_no_colon _ _)
  have hm : ':' ∉ pad2 (natToString (s % 3600 / 60)) :=
    pad2_no_colon (natDigitsAux_no_colon _ _)
  have hs : ':' ∉ pad2 (natToString (s % 60)) :=
    pad2_no_colon (natDigitsAux_no_colon _ _)
  have hsplit : splitOnColon (formatTime s) =
      [pad2 (natToString (s / 3600)), pad2 (natToString (s % 3600 / 60)),
        pad2 (natToString (s % 60))] := by
    rw [formatTime, splitOnColon_append_colon _ hh, splitOnColon_append_colon _ hm,
      splitOnColon_no_colon hs]
  rw [parseTime, hsplit]
  simp only [parseNat_pad2, parseNat_natToString]
  omega

/-! ## The live-stream core, modelled from the specification

The StreamSession registry, ProcessSupervisor, RecoveryController, HLSRelay
and ProgressBus live in the repository's `live_stream_handler.py`
(README: "Live Stream Handler", API `/api/streams/*`, `/hls/{stream_id}/`),
which is not among the available sources — only its browser-side callers
are.  The definitions in this section are therefore modelled from the
specification (§3-§8) and every such definition says so in its doc
comment. -/

/-- Modelled from the spec: the session state machine of §3/§4.3,
`Pending → Resolving → Capturing → Live → Stopping → Stopped | Failed`,
as a tagged sum so that illegal state combinations are unrepresentable. -/
inductive SessionState
  | pending
  | resolving
  | capturing
  | live
  | stopping
  | stopped
  | failed
deriving DecidableEq, Repr

/-- Modelled from the spec: terminal states are `Stopped` and `Failed`
(§4.3 "Terminal states: `Stopped`, `Failed`"). -/
def SessionState.isTerminal : SessionState → Bool
  | .stopped => true
  | .failed => true
  | _ => false

/-- Modelled from the spec: the resolution-failure taxonomy of §4.2/§7
(`Unsupported`, `Unavailable`, `RateLimited`, `Timeout`, `Unknown`;
the two sections' listings are merged). -/
inductive ResolutionError
  | unsupported
  | unavailable
  | rateLimited
  | timeout
  | unknown
deriving DecidableEq, Repr

/-- Modelled from the spec: a human-readable name for a resolution error,
stored into `lastError` when a resolve attempt fails. -/
def ResolutionError.name : ResolutionError → String
  | .unsupported => "Unsupported"
  | .unavailable => "Unavailable"
  | .rateLimited => "RateLimited"
  | .timeout => "Timeout"
  | .unknown => "Unknown"

/-- Modelled from the spec: the `StreamSession` entity of §3.  `id` is the
opaque stable identifier, `sourceURL`/`platform` the immutable creation
inputs, `processHandle` the capture-process reference owned by
ProcessSupervisor, `segments` the names of the HLS segment files the
capture process has written into the session's output directory so far.
The timestamps (`startedAt`, `lastHeartbeatAt`) and the subscriber set are
not needed by any claim; subscribers are modelled on the ProgressBus. -/
structure Session where
  id : Nat
  sourceURL : String
  platform : String
  state : SessionState
  resolvedMediaRef : Option String
  processHandle : Option Nat
  retryCount : Nat
  lastError : Option String
  segments : List String
deriving DecidableEq, Repr

/-- Modelled from the spec: the StreamSession registry of §4.1, the
authoritative in-memory store of all known sessions, with a counter from
which fresh session ids are generated. -/
structure Registry where
  sessions : List Session
  nextId : Nat
deriving DecidableEq, Repr

/-- Modelled from the spec: the registry before any request. -/
def emptyRegistry : Registry := { sessions := [], nextId := 0 }

/-- Modelled from the spec: `get(id) -> Session | NotFound` (§4.1),
the first session carrying the requested id. -/
def getSession (reg : Registry) (id : Nat) : Option Session :=
  reg.sessions.find? (fun s => s.id == id)

/-- Modelled from the spec: the failure conditions of the transition API,
`NotFound` for unknown ids and `Conflict` for a failed compare-and-swap
(§4.1). -/
inductive TransError
  | notFound
  | conflict
deriving DecidableEq, Repr

/-- Modelled from the spec: a fresh session as created by a start request —
initial state `Pending`, no process, `retryCount = 0` (§3, §4.3). -/
def freshSession (id : Nat) (url plat : String) : Session :=
  { id := id, sourceURL := url, platform := plat, state := .pending,
    resolvedMediaRef := none, processHandle := none, retryCount := 0,
    lastError := none, segments := [] }

/-- Modelled from the spec: `create(sourceURL, platform) -> SessionID`
(§4.1): idempotent — if an equivalent non-terminal session exists its id is
returned and the registry is untouched, otherwise a fresh `Pending` session
is appended under a fresh id. -/
def create (reg : Registry) (url plat : String) : Nat × Registry :=
  match reg.sessions.find? (fun s => s.sourceURL == url && !s.state.isTerminal) with
  | some s => (s.id, reg)
  | none =>
    (reg.nextId,
      { sessions := reg.sessions ++ [freshSession reg.nextId url plat],
        nextId := reg.nextId + 1 })

/-- The session written back by a successful transition: the caller's
mutator is applied and the new state installed, while the fields the spec
declares immutable (`id`, `sourceURL`, `platform`) are kept from the old
session. -/
def applyMut (s : Session) (next : SessionState) (f : Session → Session) : Session :=
  { f s with state := next, id := s.id, sourceURL := s.sourceURL, platform := s.platform }

/-- Replaces the first session carrying `id` — the same session
`getSession` finds — leaving the rest of the list untouched. -/
def updateFirst (id : Nat) (newS : Session) : List Session → List Session
  | [] => []
  | t :: ts => if t.id == id then newS :: ts else t :: updateFirst id newS ts

/-- Modelled from the spec:
`transition(id, expectedState, nextState, mutator) -> Result` (§4.1), a
compare-and-swap: the caller states the state it expects to find, and a
mismatch fails the call with `Conflict` rather than overwriting. -/
def transition (reg : Registry) (id : Nat) (expected next : SessionState)
    (f : Session → Session) : Except TransError Registry :=
  match getSession reg id with
  | none => .error .notFound
  | some s =>
    if s.state = expected then
      .ok { reg with sessions := updateFirst id (applyMut s next f) reg.sessions }
    else .error .conflict

/-- A component action through the transition API: on `Conflict` or
`NotFound` the caller leaves the registry alone (it re-reads and decides,
§7 "RegistryConflict"). -/
def applyT (reg : Registry) (id : Nat) (expected next : SessionState)
    (f : Session → Session) : Registry :=
  match transition reg id expected next f with
  | .ok reg' => reg'
  | .error _ => reg

/-- Modelled from the spec: `Pending --resolve ok--> Resolving` (§4.3),
populating `resolvedMediaRef` (§3). -/
def resolveOkOp (reg : Registry) (id : Nat) (ref : String) : Registry :=
  applyT reg id .pending .resolving (fun s => { s with resolvedMediaRef := some ref })

/-- Modelled from the spec: the two resolve-failure edges of §4.2/§4.3 —
`Unsupported` is terminal (`Pending --resolve fail (unsupported)--> Failed`,
no automatic retry), every other classification is retryable
(`Resolving --resolve fail (retryable)--> Pending [retryCount++]`). -/
def resolveFailOp (reg : Registry) (id : Nat) (err : ResolutionError) : Registry :=
  if err = .unsupported then
    applyT reg id .pending .failed (fun s => { s with lastError := some err.name })
  else
    applyT reg id .resolving .pending
      (fun s => { s with retryCount := s.retryCount + 1, lastError := some err.name })

/-- Modelled from the spec: `Resolving --spawn ok--> Capturing` (§4.3);
the supervisor installs the capture-process handle. -/
def spawnOkOp (reg : Registry) (id pid : Nat) : Registry :=
  applyT reg id .resolving .capturing (fun s => { s with processHandle := some pid })

/-- Modelled from the spec: `Capturing --first segment observed--> Live`
(§4.3); the observed segment file is recorded. -/
def firstSegmentOp (reg : Registry) (id : Nat) (seg : String) : Registry :=
  applyT reg id .capturing .live (fun s => { s with segments := s.segments ++ [seg] })

/-- Modelled from the spec: `Capturing|Live --process exit code != 0 or
heartbeat timeout--> Pending [retryCount++] or Failed` (§4.3).  The
threshold is fixed by the §8 scenario ("capture process exits with code 137
twice, `maxRetries = 2` → session ends in `Failed` with
`retryCount == 2`"): the crash increments `retryCount` and the session
fails once the incremented count reaches `maxRetries`.  The supervisor's
mandatory teardown clears the process handle on this exit path (§9). -/
def crashOp (reg : Registry) (id maxRetries : Nat) : Registry :=
  match getSession reg id with
  | none => reg
  | some s =>
    if s.state = .capturing ∨ s.state = .live then
      applyT reg id s.state
        (if s.retryCount + 1 ≥ maxRetries then .failed else .pending)
        (fun t => { t with retryCount := t.retryCount + 1, processHandle := none,
                           lastError := some "CrashedNonZero" })
    else reg

/-- Modelled from the spec: `any --explicit stop request--> Stopping` (§4.3)
read together with §5's cancellation contract ("a stop request sets the
session to `Stopping` and signals the owning supervisor task"): a session
that owns a capture process enters `Stopping` and keeps its handle until
the process is confirmed terminated; a `Pending`/`Resolving` session owns
no process, so there is nothing to wait for and it is `Stopped` at once. -/
def stopRequestOp (reg : Registry) (id : Nat) : Registry :=
  match getSession reg id with
  | none => reg
  | some s =>
    if s.state = .capturing ∨ s.state = .live then
      applyT reg id s.state .stopping (fun t => t)
    else if s.state = .pending ∨ s.state = .resolving then
      applyT reg id s.state .stopped (fun t => { t with processHandle := none })
    else reg

/-- Modelled from the spec: `Stopping --process terminated--> Stopped`
(§4.3); the supervisor's teardown releases the handle (no process-handle
leak, §8 "Stop correctness"). -/
def terminatedOp (reg : Registry) (id : Nat) : Registry :=
  applyT reg id .stopping .stopped (fun t => { t with processHandle := none })

/-- Modelled from the spec: RecoveryController step 3 (§4.4) — a terminal
session past the retention window is removed from the registry and its
output directory reclaimed. -/
def reclaimOp (reg : Registry) (id : Nat) : Registry :=
  { reg with sessions := reg.sessions.filter (fun s => !(s.id == id && s.state.isTerminal)) }

/-- Modelled from the spec: RecoveryController step 1 (§4.4) — the periodic
loop scans sessions in `Pending` with `retryCount ≤ maxRetries` and
schedules resolve + start for them (with exponential backoff keyed by
`retryCount`). -/
def recoveryEligible (maxRetries : Nat) (s : Session) : Bool :=
  s.state == .pending && s.retryCount ≤ maxRetries

/-- Modelled from the spec: the registries reachable through the
registry's API — every mutation goes through `create`, the §4.3 transition
operations, or terminal reclamation (§3 "mutated exclusively through the
registry's transition API"). -/
inductive Reachable : Registry → Prop
  | init : Reachable emptyRegistry
  | create {r} (url plat : String) : Reachable r → Reachable (create r url plat).2
  | resolveOk {r} (id : Nat) (ref : String) : Reachable r → Reachable (resolveOkOp r id ref)
  | resolveFail {r} (id : Nat) (err : ResolutionError) :
      Reachable r → Reachable (resolveFailOp r id err)
  | spawnOk {r} (id pid : Nat) : Reachable r → Reachable (spawnOkOp r id pid)
  | firstSegment {r} (id : Nat) (seg : String) :
      Reachable r → Reachable (firstSegmentOp r id seg)
  | crash {r} (id maxRetries : Nat) : Reachable r → Reachable (crashOp r id maxRetries)
  | stopReq {r} (id : Nat) : Reachable r → Reachable (stopRequestOp r id)
  | terminated {r} (id : Nat) : Reachable r → Reachable (terminatedOp r id)
  | reclaim {r} (id : Nat) : Reachable r → Reachable (reclaimOp r id)

/-! ### The process-handle invariant (C1) -/

/-- The §3 invariant: a session's `processHandle` is non-null exactly in
the states in which a capture process exists. -/
def HandleInv (s : Session) : Prop :=
  s.processHandle ≠ none ↔
    (s.state = .capturing ∨ s.state = .live ∨ s.state = .stopping)

/-- The invariant, for every session held in the registry. -/
def RegInv (reg : Registry) : Prop := ∀ s ∈ reg.sessions, HandleInv s

theorem mem_updateFirst {t : Session} {id : Nat} {newS : Session} :
    ∀ {l : List Session}, t ∈ updateFirst id newS l → t = newS ∨ t ∈ l := by
  intro l
  induction l with
  | nil => intro h; exact absurd h (List.not_mem_nil t)
  | cons x xs ih =>
    intro h
    by_cases hx : x.id == id
    · simp only [updateFirst, if_pos hx, List.mem_cons] at h
      rcases h with h | h
      · exact Or.inl h
      · exact Or.inr (List.mem_cons_of_mem x h)
    · simp only [updateFirst, if_neg hx, List.mem_cons] at h
      rcases h with h | h
      · exact Or.inr (h ▸ List.mem_cons_self x xs)
      · rcases ih h with h' | h'
        · exact Or.inl h'
        · exact Or.inr (List.mem_cons_of_mem x h')

theorem getSession_mem {reg : Registry} {id : Nat} {s : Session}
    (h : getSession reg id = some s) : s ∈ reg.sessions :=
  List.mem_of_find?_eq_some h

theorem applyT_preserves {reg : Registry} {id : Nat} {e n : SessionState}
    {f : Session → Session} (hreg : RegInv reg)
    (hf : ∀ s, HandleInv s → s.state = e → HandleInv (applyMut s n f)) :
    RegInv (applyT reg id e n f) := by
  unfold applyT transition
  cases hfind : getSession reg id with
  | none => exact hreg
  | some s =>
    by_cases hst : s.state = e
    · simp only [hst, if_pos rfl]
      intro t ht
      rcases mem_updateFirst ht with h | h
      · exact h ▸ hf s (hreg s (getSession_mem hfind)) hst
      · exact hreg t h
    · simp only [if_neg hst]
      exact hreg

theorem regInv_create {reg : Registry} (url plat : String) (h : RegInv reg) :
    RegInv (create reg url plat).2 := by
  unfold create
  cases hfind : reg.sessions.find? (fun s => s.sourceURL == url && !s.state.isTerminal) with
  | some s => exact h
  | none =>
    intro t ht
    simp only [List.mem_append, List.mem_singleton] at ht
    rcases ht with ht | ht
    · exact h t ht
    · subst ht
      simp [HandleInv, freshSession]

theorem regInv_resolveOk {reg : Registry} (id : Nat) (ref : String) (h : RegInv reg) :
    RegInv (resolveOkOp reg id ref) := by
  refine applyT_preserves h ?_
  intro s hs hst
  simp only [HandleInv, applyMut] at hs ⊢
  simp only [hst] at hs
  simp only [hs]
  simp

theorem regInv_resolveFail {reg : Registry} (id : Nat) (err : ResolutionError)
    (h : RegInv reg) : RegInv (resolveFailOp reg id err) := by
  unfold resolveFailOp
  by_cases he : err = .unsupported
  · simp only [if_pos he]
    refine applyT_preserves h ?_
    intro s hs hst
    simp only [HandleInv, applyMut] at hs ⊢
    simp only [hst] at hs
    simp only [hs]
    simp
  · simp only [if_neg he]
    refine applyT_preserves h ?_
    intro s hs hst
    simp only [HandleInv, applyMut] at hs ⊢
    simp only [hst] at hs
    simp only [hs]
    simp

theorem regInv_spawnOk {reg : Registry} (id pid : Nat) (h : RegInv reg) :
    RegInv (spawnOkOp reg id pid) := by
  refine applyT_preserves h ?_
  intro s hs hst
  simp [HandleInv, applyMut]

theorem regInv_firstSegment {reg : Registry} (id : Nat) (seg : String) (h : RegInv reg) :
    RegInv (firstSegmentOp reg id seg) := by
  refine applyT_preserves h ?_
  intro s hs hst
  simp only [HandleInv, applyMut] at hs ⊢
  simp only [hst] at hs
  simp only [hs]
  simp

theorem regInv_crash {reg : Registry} (id maxRetries : Nat) (h : RegInv reg) :
    RegInv (crashOp reg id maxRetries) := by
  unfold crashOp
  cases hfind : getSession reg id with
  | none => exact h
  | some s =>
    by_cases hst : s.state = .capturing ∨ s.state = .live
    · simp only [if_pos hst]
      refine applyT_preserves h ?_
      intro t ht hts
      by_cases hge : s.retryCount + 1 ≥ maxRetries <;>
        simp [hge, HandleInv, applyMut]
    · simp only [if_neg hst]
      exact h

theorem regInv_stopReq {reg : Registry} (id : Nat) (h : RegInv reg) :
    RegInv (stopRequestOp reg id) := by
  unfold stopRequestOp
  cases hfind : getSession reg id with
  | none => exact h
  | some s =>
    by_cases hst : s.state = .capturing ∨ s.state = .live
    · simp only [if_pos hst]
      refine applyT_preserves h ?_
      intro t ht hts
      simp only [HandleInv, applyMut] at ht ⊢
      simp only [hts] at ht
      have hph : t.processHandle ≠ none := by
        rw [ht]
        rcases hst with h' | h' <;> simp [h']
      refine ⟨fun _ => ?_, fun _ => hph⟩
      simp
    · simp only [if_neg hst]
      by_cases hst2 : s.state = .pending ∨ s.state = .resolving
      · simp only [if_pos hst2]
        refine applyT_preserves h ?_
        intro t ht hts
        simp [HandleInv, applyMut]
      · simp only [if_neg hst2]
        exact h

theorem regInv_terminated {reg : Registry} (id : Nat) (h : RegInv reg) :
    RegInv (terminatedOp reg id) := by
  refine applyT_preserves h ?_
  intro s hs hst
  simp [HandleInv, applyMut]

theorem regInv_reclaim {reg : Registry} (id : Nat) (h : RegInv reg) :
    RegInv (reclaimOp reg id) := by
  intro t ht
  exact h t (List.mem_of_mem_filter ht)

/-- Claim C1: In every reachable registry — after every transition the
registry's API admits — every held session's `processHandle` is non-null
if and only if its state is one of `Capturing`, `Live`, `Stopping`. -/
theorem registry_handle_invariant {reg : Registry} (h : Reachable reg) :
    ∀ s ∈ reg.sessions,
      (s.processHandle ≠ none ↔
        (s.state = .capturing ∨ s.state = .live ∨ s.state = .stopping)) := by
  induction h with
  | init => intro s hs; exact absurd hs (List.not_mem_nil s)
  | create url plat _ ih => exact regInv_create url plat ih
  | resolveOk id ref _ ih => exact regInv_resolveOk id ref ih
  | resolveFail id err _ ih => exact regInv_resolveFail id err ih
  | spawnOk id pid _ ih => exact regInv_spawnOk id pid ih
  | firstSegment id seg _ ih => exact regInv_firstSegment id seg ih
  | crash id maxRetries _ ih => exact regInv_crash id maxRetries ih
  | stopReq id _ ih => exact regInv_stopReq id ih
  | terminated id _ ih => exact regInv_terminated id ih
  | reclaim id _ ih => exact regInv_reclaim id ih

/-- A closed instance of the handle invariant, obtained from
`registry_handle_invariant` on the registry reached by creating a session,
resolving it and spawning its capture process. -/
theorem registry_handle_invariant_witness :
    (({ id := 0, sourceURL := "u", platform := "p", state := .capturing,
        resolvedMediaRef := some "m", processHandle := some 7, retryCount := 0,
        lastError := none, segments := [] : Session}).processHandle ≠ none ↔
      (SessionState.capturing = .capturing ∨ SessionState.capturing = .live ∨
        SessionState.capturing = .stopping)) :=
  registry_handle_invariant
    (Reachable.spawnOk 0 7 (Reachable.resolveOk 0 "m"
      (Reachable.create "u" "p" Reachable.init)))
    { id := 0, sourceURL := "u", platform := "p", state := .capturing,
      resolvedMediaRef := some "m", processHandle := some 7, retryCount := 0,
      lastError := none, segments := [] }
    (by decide)

/-! ### Idempotent start (C2) -/

/-- Claim C2: `create` is idempotent: a second start request for the same
`sourceURL`, issued right after the first (so while the session the first
one produced or found is still non-terminal, being freshly `Pending`),
returns the same session id and leaves the registry exactly as it was —
no new session is created. -/
theorem create_idempotent (reg : Registry) (url plat : String) :
    create (create reg url plat).2 url plat = create reg url plat := by
  unfold create
  cases hfind : reg.sessions.find? (fun s => s.sourceURL == url && !s.state.isTerminal) with
  | some s => simp [hfind]
  | none =>
    simp only [hfind, List.find?_append, Option.or]
    simp [freshSession, SessionState.isTerminal]

/-! ### Compare-and-swap conflict (C4) -/

/-- Claim C4: A `transition(id, expectedState, nextState, mutator)` call that
finds the session in a state other than `expectedState` fails with
`Conflict`, and a caller that goes through the transition API
(`applyT`) leaves the registry — the session's state and every other
field — exactly unchanged; only a call whose expectation matches the
current state can mutate the session. -/
theorem transition_conflict_preserves (reg : Registry) (id : Nat)
    (expected next : SessionState) (f : Session → Session) (s : Session)
    (h : getSession reg id = some s) (hne : s.state ≠ expected) :
    transition reg id expected next f = .error .conflict ∧
      applyT reg id expected next f = reg := by
  have ht : transition reg id expected next f = .error .conflict := by
    unfold transition
    rw [h]
    simp [hne]
  exact ⟨ht, by unfold applyT; rw [ht]⟩

/-- A closed instance of `transition_conflict_preserves`: a compare-and-swap
expecting `Live` on a session that is still `Pending` fails with `Conflict`
and changes nothing. -/
theorem transition_conflict_preserves_witness :
    transition (create emptyRegistry "u" "p").2 0 .live .stopping (fun t => t) =
        .error .conflict ∧
      applyT (create emptyRegistry "u" "p").2 0 .live .stopping (fun t => t) =
        (create emptyRegistry "u" "p").2 :=
  transition_conflict_preserves (create emptyRegistry "u" "p").2 0 .live .stopping
    (fun t => t) (freshSession 0 "u" "p") (by decide) (by decide)

/-! ### Recovery bound under repeated crashes (C3) -/

/-- One recovery cycle of a session whose capture process crashes every
time: RecoveryController schedules resolve + start (§4.4 step 1), the
resolve succeeds, the spawn succeeds, and the capture process promptly
exits non-zero. -/
def cycleOnce (maxRetries : Nat) (reg : Registry) (id : Nat) : Registry :=
  crashOp (spawnOkOp (resolveOkOp reg id "media") id 1) id maxRetries

/-- The registry after a start request for a stream whose capture process
crashes on each of its first `k` capture attempts. -/
def crashRun (maxRetries : Nat) : Nat → Registry
  | 0 => (create emptyRegistry "src" "plat").2
  | k + 1 => cycleOnce maxRetries (crashRun maxRetries k) 0

/-- The session field values after one crash cycle applied to a `Pending`
session: the crash edge of §4.3 increments `retryCount` and moves the
session to `Failed` once the incremented count reaches `maxRetries`,
back to `Pending` otherwise. -/
def crashStep (maxRetries : Nat) (s : Session) : Session :=
  { s with
    state := if s.retryCount + 1 ≥ maxRetries then .failed else .pending,
    retryCount := s.retryCount + 1,
    resolvedMediaRef := some "media",
    processHandle := none,
    lastError := some "CrashedNonZero" }

theorem cycleOnce_pending {m : Nat} {s : Session} {n : Nat}
    (hid : s.id = 0) (hst : s.state = .pending) :
    cycleOnce m { sessions := [s], nextId := n } 0 =
      { sessions := [crashStep m s], nextId := n } := by
  simp [cycleOnce, resolveOkOp, spawnOkOp, crashOp, applyT, transition, getSession,
    updateFirst, applyMut, crashStep, hid, hst]

theorem cycleOnce_failed {m : Nat} {s : Session} {n : Nat}
    (hid : s.id = 0) (hst : s.state = .failed) :
    cycleOnce m { sessions := [s], nextId := n } 0 =
      { sessions := [s], nextId := n } := by
  simp [cycleOnce, resolveOkOp, spawnOkOp, crashOp, applyT, transition, getSession,
    updateFirst, applyMut, hid, hst]

/-- The single session of `crashRun` after `k ≥ 1` crash cycles. -/
def loopSess (maxRetries k : Nat) : Session :=
  { id := 0, sourceURL := "src", platform := "plat",
    state := if maxRetries ≤ k then .failed else .pending,
    resolvedMediaRef := some "media", processHandle := none,
    retryCount := min k maxRetries, lastError := some "CrashedNonZero",
    segments := [] }

theorem crashRun_succ_spec {m : Nat} (hm : 0 < m) :
    ∀ k, crashRun m (k + 1) = { sessions := [loopSess m (k + 1)], nextId := 1 } := by
  intro k
  induction k with
  | zero =>
    have h0 : crashRun m 0 =
        { sessions := [freshSession 0 "src" "plat"], nextId := 1 } := by
      simp [crashRun, create, emptyRegistry, freshSession]
    show cycleOnce m (crashRun m 0) 0 = _
    rw [h0, cycleOnce_pending rfl rfl]
    have hmin : min 1 m = 1 := Nat.min_eq_left hm
    simp [crashStep, loopSess, freshSession, hmin, ge_iff_le]
  | succ j ih =>
    show cycleOnce m (crashRun m (j + 1)) 0 = _
    rw [ih]
    by_cases hf : m ≤ j + 1
    · have hst : (loopSess m (j + 1)).state = .failed := by
        simp [loopSess, hf]
      rw [cycleOnce_failed rfl hst]
      have e1 : min (j + 1) m = m := Nat.min_eq_right hf
      have e2 : min (j + 1 + 1) m = m := Nat.min_eq_right (by omega)
      simp [loopSess, hf, e1, e2, (by omega : m ≤ j + 1 + 1)]
    · have hst : (loopSess m (j + 1)).state = .pending := by
        simp [loopSess, hf]
      rw [cycleOnce_pending rfl hst]
      have e1 : min (j + 1) m = j + 1 := Nat.min_eq_left (by omega)
      have e2 : min (j + 1 + 1) m = j + 1 + 1 := Nat.min_eq_left (by omega)
      simp [crashStep, loopSess, e1, e2, ge_iff_le, hf]

/-- Claim C3: A session whose capture process crashes on every attempt ends
in `Failed` after exactly `maxRetries` failed capture attempts — not more,
not fewer — and at that point `retryCount = maxRetries`: after `k < maxRetries`
crashes the session is still (recoverably) `Pending` with
`retryCount = k`, after `maxRetries` crashes it is `Failed` with
`retryCount = maxRetries`, and further cycles change nothing.  With
`maxRetries = 2`, two crashes end the session in `Failed` with
`retryCount == 2`, the §8 scenario. -/
theorem crash_retry_bound (m k : Nat) (hm : 0 < m) :
    (crashRun m k).sessions.map (fun s => (s.state, s.retryCount)) =
      [((if m ≤ k then SessionState.failed else .pending), min k m)] := by
  cases k with
  | zero =>
    have h0 : crashRun m 0 =
        { sessions := [freshSession 0 "src" "plat"], nextId := 1 } := by
      simp [crashRun, create, emptyRegistry, freshSession]
    rw [h0]
    simp only [List.map_cons, List.map_nil, freshSession]
    have : ¬ m ≤ 0 := by omega
    simp [this]
  | succ j =>
    rw [crashRun_succ_spec hm j]
    simp [loopSess]

/-- A closed instance of `crash_retry_bound`, the §8 scenario: with
`maxRetries = 2`, after two crashes the session is `Failed` with
`retryCount = 2`. -/
theorem crash_retry_bound_witness :
    0 < 2 ∧
      (crashRun 2 2).sessions.map (fun s => (s.state, s.retryCount)) =
        [((if 2 ≤ 2 then SessionState.failed else .pending), min 2 2)] :=
  ⟨by decide, crash_retry_bound 2 2 (by decide)⟩

/-! ### Session lookup after a transition -/

theorem find?_updateFirst {l : List Session} {id : Nat} {s newS : Session}
    (h : l.find? (fun t => t.id == id) = some s) (hnew : newS.id = id) :
    (updateFirst id newS l).find? (fun t => t.id == id) = some newS := by
  induction l with
  | nil => exact absurd h (by simp)
  | cons x xs ih =>
    by_cases hx : x.id == id
    · simp only [updateFirst, if_pos hx]
      simp [hnew]
    · simp only [updateFirst, if_neg hx]
      have hcons : ∀ ys : List Session,
          List.find? (fun t => t.id == id) (x :: ys) =
            List.find? (fun t => t.id == id) ys := fun ys =>
        List.find?_cons_of_neg ys hx
      rw [hcons] at h
      rw [hcons]
      exact ih h

theorem getSession_applyT {reg : Registry} {id : Nat} {e n : SessionState}
    {f : Session → Session} {s : Session} (h : getSession reg id = some s) :
    getSession (applyT reg id e n f) id =
      some (if s.state = e then applyMut s n f else s) := by
  have hid : s.id = id := by
    have := List.find?_some h
    simpa using this
  unfold applyT transition
  rw [h]
  by_cases hst : s.state = e
  · simp only [if_pos hst]
    exact find?_updateFirst h (by simp [applyMut, hid])
  · simp only [if_neg hst]
    exact h

/-! ### Resolution-failure classification (C6) -/

/-- Claim C6: A resolve failure classified `Unsupported` moves the session
directly to `Failed` — a terminal state the RecoveryController never
retries (`recoveryEligible` is false for it) — while a failure classified
`Unavailable` re-enters `Pending` with `retryCount` incremented, a
non-terminal state that the RecoveryController's backoff scan picks up
again whenever the retry budget is not exhausted. -/
theorem resolution_error_handling (reg : Registry) (id maxRetries : Nat) (s : Session)
    (h : getSession reg id = some s) :
    (s.state = .pending →
      (getSession (resolveFailOp reg id .unsupported) id).map Session.state =
          some .failed ∧
        (getSession (resolveFailOp reg id .unsupported) id).map
            (fun t => t.state.isTerminal) = some true ∧
        (getSession (resolveFailOp reg id .unsupported) id).map
            (recoveryEligible maxRetries) = some false) ∧
    (s.state = .resolving →
      (getSession (resolveFailOp reg id .unavailable) id).map Session.state =
          some .pending ∧
        (getSession (resolveFailOp reg id .unavailable) id).map Session.retryCount =
          some (s.retryCount + 1) ∧
        (getSession (resolveFailOp reg id .unavailable) id).map
            (fun t => t.state.isTerminal) = some false ∧
        (s.retryCount + 1 ≤ maxRetries →
          (getSession (resolveFailOp reg id .unavailable) id).map
              (recoveryEligible maxRetries) = some true)) := by
  constructor
  · intro hst
    have hget : getSession (resolveFailOp reg id .unsupported) id =
        some (applyMut s .failed
          (fun t => { t with lastError := some ResolutionError.unsupported.name })) := by
      unfold resolveFailOp
      rw [if_pos rfl]
      rw [getSession_applyT h, if_pos hst]
    rw [hget]
    refine ⟨rfl, rfl, ?_⟩
    simp [recoveryEligible, applyMut]
  · intro hst
    have hget : getSession (resolveFailOp reg id .unavailable) id =
        some (applyMut s .pending
          (fun t => { t with retryCount := t.retryCount + 1,
                             lastError := some ResolutionError.unavailable.name })) := by
      unfold resolveFailOp
      rw [if_neg (by decide)]
      rw [getSession_applyT h, if_pos hst]
    rw [hget]
    refine ⟨rfl, rfl, rfl, ?_⟩
    intro hle
    simp [recoveryEligible, applyMut, hle]

/-- A closed instance of `resolution_error_handling`: an `Unavailable`
failure on a freshly resolving session leaves it in `Pending`, not in a
terminal state. -/
theorem resolution_error_handling_witness :
    (getSession (resolveFailOp (resolveOkOp (create emptyRegistry "u" "p").2 0 "m") 0
        .unavailable) 0).map Session.state = some .pending := by
  have h := resolution_error_handling
    (resolveOkOp (create emptyRegistry "u" "p").2 0 "m") 0 5
    (applyMut (freshSession 0 "u" "p") .resolving
      (fun t => { t with resolvedMediaRef := some "m" }))
    (by decide)
  exact (h.2 (by decide)).1

/-! ### HLSRelay gating (C5) -/

/-- Modelled from the spec: the relay's result type — `NotFound`,
`NotReady` (§4.5, §7 "RelayError"), or the manifest bytes. -/
inductive RelayResult
  | notFound
  | notReady
  | manifest (entries : List String)
deriving DecidableEq, Repr

/-- Modelled from the spec: the manifest the relay serves for a session —
a complete playlist referencing exactly the segment files the capture
process has finished writing (the relay reads only the session's own
output directory, §4.5). -/
def manifestFor (segments : List String) : List String :=
  "#EXTM3U" :: segments

/-- Modelled from the spec: `serveManifest(streamID)` (§4.5) — `NotFound`
for an unknown id, `NotReady` before the capture process has produced its
first segment, and the full manifest as soon as one segment exists.  The
`Live`/`Stopping` precondition of §4.5 coincides with segment existence
under the state machine: observing the first segment is exactly the
`Capturing → Live` edge. -/
def serveManifest (reg : Registry) (id : Nat) : RelayResult :=
  match getSession reg id with
  | none => .notFound
  | some s => if s.segments.isEmpty then .notReady else .manifest (manifestFor s.segments)

/-- Claim C5: For a stream id whose session exists, `serveManifest` answers
`NotReady` whenever the session is still `Pending`, `Resolving`, or
`Capturing` with zero segments produced, and answers the complete manifest
over the session's segment set once the first segment has been written —
there is no intermediate result: every non-`NotReady` answer is the full
manifest of all written segments. -/
theorem serveManifest_gating (reg : Registry) (id : Nat) (s : Session)
    (h : getSession reg id = some s) :
    ((s.state = .pending ∨ s.state = .resolving ∨ s.state = .capturing) →
      s.segments = [] → serveManifest reg id = .notReady) ∧
    (s.segments ≠ [] →
      serveManifest reg id = .manifest (manifestFor s.segments)) := by
  unfold serveManifest
  rw [h]
  constructor
  · intro _ hseg
    simp [hseg]
  · intro hseg
    simp [List.isEmpty_iff, hseg]

/-- A closed instance of `serveManifest_gating`: once the session has
written its first segment, the relay serves the complete manifest. -/
theorem serveManifest_gating_witness :
    serveManifest
        (firstSegmentOp (spawnOkOp (resolveOkOp (create emptyRegistry "u" "p").2 0 "m") 0 7)
          0 "seg0.ts") 0 =
      .manifest (manifestFor ["seg0.ts"]) := by
  have h := serveManifest_gating
    (firstSegmentOp (spawnOkOp (resolveOkOp (create emptyRegistry "u" "p").2 0 "m") 0 7)
      0 "seg0.ts") 0
    { id := 0, sourceURL := "u", platform := "p", state := .live,
      resolvedMediaRef := some "m", processHandle := some 7, retryCount := 0,
      lastError := none, segments := ["seg0.ts"] }
    (by decide)
  exact h.2 (by decide)

/-! ### ProgressBus event contents (C8) -/

/-- Modelled from the spec: a ProgressBus event carries
`{state, progressHint, message, timestamp}` (§4.6). -/
structure ProgressEvent where
  state : SessionState
  progressHint : Nat
  message : String
  timestamp : Nat
deriving DecidableEq, Repr

/-- Modelled from the spec: the ProgressBus subscription table —
`subscribe(connectionID, streamID)` records that the connection wants the
events of that stream (§4.6). -/
structure ProgressBus where
  subs : List (Nat × Nat)
deriving DecidableEq, Repr

/-- Modelled from the spec: `subscribe(connectionID, streamID)` (§4.6). -/
def subscribe (bus : ProgressBus) (connectionID streamID : Nat) : ProgressBus :=
  { subs := bus.subs ++ [(connectionID, streamID)] }

/-- Modelled from the spec: `publish(streamID, event)` fans the event out
to every subscriber of that stream, best-effort (§4.6): the result is the
list of (connection, event) deliveries. -/
def publish (bus : ProgressBus) (streamID : Nat) (e : ProgressEvent) :
    List (Nat × ProgressEvent) :=
  bus.subs.filterMap (fun p => if p.2 == streamID then some (p.1, e) else none)

/-- Claim C8: Every event `publish` delivers to a subscriber over the
per-connection progress channel is the published event itself, carrying
exactly the fields `{state, progressHint, message, timestamp}`. -/
theorem progress_event_fields (bus : ProgressBus) (streamID : Nat)
    (e : ProgressEvent) (d : Nat × ProgressEvent) (h : d ∈ publish bus streamID e) :
    d.2 = { state := e.state, progressHint := e.progressHint,
            message := e.message, timestamp := e.timestamp } := by
  unfold publish at h
  rw [List.mem_filterMap] at h
  obtain ⟨p, -, hp⟩ := h
  by_cases hs : p.2 == streamID
  · rw [if_pos hs] at hp
    cases hp
    rfl
  · rw [if_neg hs] at hp
    cases hp

/-- A closed instance of `progress_event_fields` on a one-subscriber bus. -/
theorem progress_event_fields_witness :
    ((7 : Nat), { state := .live, progressHint := 50, message := "m",
                  timestamp := 123 : ProgressEvent }).2 =
      { state := SessionState.live, progressHint := 50, message := "m",
        timestamp := 123 : ProgressEvent } :=
  progress_event_fields (subscribe { subs := [] } 7 3) 3
    { state := .live, progressHint := 50, message := "m", timestamp := 123 }
    (7, { state := .live, progressHint := 50, message := "m", timestamp := 123 })
    (by decide)

/-! ## Progress WebSocket client
(static/js/videoeditor/core/utils.js 48-73; the same shape in part_005
637-658 and trimmodule.js 157-175)

`initWebSocket(connectionId)` opens
`(wss|ws)://{host}/ws/{connectionId}`, installs an `onmessage` handler that
parses each pushed message as JSON and writes `data.progress + "%"` into
the progress bar and `data.status` into the status line, installs an
`onerror` logger, and returns the socket.  No handler ever calls
`ws.send`: the client pushes nothing after subscribing.  Every caller
chooses the connection id itself as a fresh `crypto.randomUUID()`
(utils.js 174, part_005 9, trimmodule.js 91, ...). -/

/-- The characters of a string literal (JS strings as `List Char`). -/
def chars (s : String) : List Char := s.data

/-- A JSON value as far as the progress channel needs one: the `progress`
and `status` fields the handlers read are numbers and strings. -/
inductive JSValue
  | str (s : List Char)
  | num (n : Nat)
deriving DecidableEq, Repr

/-- A parsed JSON object: field names with values. -/
structure JsonObj where
  fields : List (List Char × JSValue)
deriving DecidableEq, Repr

/-- JS property lookup `data.k` on a parsed object. -/
def JsonObj.get (o : JsonObj) (k : List Char) : Option JSValue :=
  (o.fields.find? (fun kv => kv.1 == k)).map Prod.snd

/-- JS string coercion of a property read: `undefined` for a missing
field, decimal rendering for a number. -/
def jsDisplayString : Option JSValue → List Char
  | none => chars "undefined"
  | some (.str s) => s
  | some (.num n) => natToString n

/-- The two DOM targets the handler drives: `progressBar.style.width` and
`statusText.textContent`. -/
structure ProgressDisplay where
  progressBarWidth : List Char
  statusText : List Char
deriving DecidableEq, Repr

/-- The client-side view of the socket `initWebSocket` returns: the URL it
was opened on, the list of messages the client sends after subscribing,
and the installed message handler.  `onmessage` takes `none` when
`JSON.parse` threw (the `catch` leaves the display untouched). -/
structure WSClient where
  url : List Char
  sent : List JsonObj
  onmessage : Option JsonObj → ProgressDisplay → ProgressDisplay

/-- The protocol pick `window.location.protocol === "https:" ? "wss" : "ws"`. -/
def wsProtocol (pageProtocol : List Char) : List Char :=
  if pageProtocol = chars "https:" then chars "wss" else chars "ws"

/-- The function `VideoEditorUtils.initWebSocket(connectionId)` (utils.js 48-73). -/
def initWebSocket (pageProtocol host connectionId : List Char) : WSClient :=
  { url := wsProtocol pageProtocol ++ chars "://" ++ host ++ chars "/ws/" ++ connectionId
  , sent := []
  , onmessage := fun raw d =>
      match raw with
      | none => d
      | some data =>
        { progressBarWidth := jsDisplayString (data.get (chars "progress")) ++ ['%']
        , statusText := jsDisplayString (data.get (chars "status")) } }

/-- The connection id the client subscribes under: the freshly generated
UUID itself (`connectionId: crypto.randomUUID()`, utils.js 174). -/
def clientConnectionId (freshUUID : List Char) : List Char := freshUUID

/-- What the specification says drives the display: exactly the `progress`
and `status` fields of the pushed JSON message. -/
def displayUpdate (progress status : Option JSValue) : ProgressDisplay :=
  { progressBarWidth := jsDisplayString progress ++ ['%']
  , statusText := jsDisplayString status }

/-- Claim C7: The progress-channel client subscribes under the id it chose
itself (the fresh UUID), opening `{ws|wss}://{host}/ws/{connectionId}`; it
sends no client-to-server message after subscribing; every server-pushed
message is parsed as JSON and exactly its `progress` and `status` fields
drive the progress display (a message that fails to parse changes
nothing). -/
theorem client_ws_contract (pageProtocol host uuid : List Char)
    (data : JsonObj) (d : ProgressDisplay) :
    (initWebSocket pageProtocol host (clientConnectionId uuid)).url =
        wsProtocol pageProtocol ++ chars "://" ++ host ++ chars "/ws/" ++ uuid ∧
      (initWebSocket pageProtocol host (clientConnectionId uuid)).sent = [] ∧
      (initWebSocket pageProtocol host (clientConnectionId uuid)).onmessage
          (some data) d =
        displayUpdate (data.get (chars "progress")) (data.get (chars "status")) ∧
      (initWebSocket pageProtocol host (clientConnectionId uuid)).onmessage none d = d :=
  ⟨rfl, rfl, rfl, rfl⟩

/-! ## Universal fetch interceptor (static/fetch-interceptor.js, part_006 708-744)

The override of `window.fetch` rewrites a string URL in three steps before
calling the original fetch:
1. if it contains the production domain, every
   `https?://mosaicmaster-production.up.railway.app` occurrence is removed
   (`url.replace(/https?:\/\/mosaicmaster\.\.\./g, '')`);
2. if it matches `^https?:\/\/.*\/api\//`, the leading
   `^https?:\/\/[^\/]+` (scheme and host) is stripped;
3. if it still contains `/api/` and does not start with `/`, it becomes
   `'/' + url.replace(/^.*?\/api\//, 'api/')`.

The embedding mirrors each regex operation on `List Char`: alternation
`https?` prefers the `s` (longest) branch, `.` does not match a newline,
`[^\/]+` needs at least one character, `/g` removes non-overlapping
occurrences left to right, and lazy `^.*?` stops at the first `/api/`. -/

/-- The production domain the interceptor strips. -/
def railwayDomain : List Char := chars "mosaicmaster-production.up.railway.app"

/-- The scheme `http://`. -/
def httpScheme : List Char := chars "http://"

/-- The scheme `https://`. -/
def httpsScheme : List Char := chars "https://"

/-- The pattern `http://` + production domain, the short branch of the `/g` regex. -/
def httpRailway : List Char := httpScheme ++ railwayDomain

/-- The pattern `https://` + production domain, the branch the regex engine prefers. -/
def httpsRailway : List Char := httpsScheme ++ railwayDomain

/-- The segment `/api/`. -/
def apiSeg : List Char := chars "/api/"

/-- Containment `str.includes(p)`: `p` occurs as a contiguous substring. -/
def isSubstr (p : List Char) : List Char → Bool
  | [] => p.isEmpty
  | c :: rest => p.isPrefixOf (c :: rest) || isSubstr p rest

/-- One `https?:\/\/mosaicmaster…` alternation test at the current scan
position, `https` branch first (the regex's longest option). -/
def matchesAt (l : List Char) : Bool :=
  httpsRailway.isPrefixOf l || httpRailway.isPrefixOf l

/-- The `/g` replace-with-empty scan of step 1, fuelled by the string
length so the recursion is structural: at each position remove a matching
`https?://domain` occurrence and continue after it, otherwise keep the
character and move on. -/
def removeRailwayAux : Nat → List Char → List Char
  | 0, l => l
  | _ + 1, [] => []
  | fuel + 1, c :: rest =>
    if httpsRailway.isPrefixOf (c :: rest) then
      removeRailwayAux fuel (rest.drop (httpsRailway.length - 1))
    else if httpRailway.isPrefixOf (c :: rest) then
      removeRailwayAux fuel (rest.drop (httpRailway.length - 1))
    else c :: removeRailwayAux fuel rest

/-- Step 1's `url.replace(/https?:\/\/mosaicmaster\.\.\.railway\.app/g, '')`. -/
def removeRailway (l : List Char) : List Char := removeRailwayAux l.length l

/-- The characters regex `.` can consume: everything before the first
newline. -/
def firstLine (l : List Char) : List Char := l.takeWhile (fun c => !(c == '\n'))

/-- The `^https?:\/\/` part shared by step 2's two regexes: the matched
length, `https` branch preferred. -/
def schemePrefixLen (l : List Char) : Option Nat :=
  if httpsScheme.isPrefixOf l then some httpsScheme.length
  else if httpScheme.isPrefixOf l then some httpScheme.length
  else none

/-- The test `url.match(/^https?:\/\/.*\/api\//) !== null`: a scheme prefix with a
`/api/` occurrence reachable by `.*` (no newline before it). -/
def step2cond (l : List Char) : Bool :=
  match schemePrefixLen l with
  | none => false
  | some k => isSubstr apiSeg (firstLine (l.drop k))

/-- The replace `url.replace(/^https?:\/\/[^\/]+/, '')`: strip the scheme and the
maximal non-empty run of non-`/` characters after it; no match leaves the
string unchanged. -/
def stripSchemeHost (l : List Char) : List Char :=
  match schemePrefixLen l with
  | none => l
  | some k =>
    let r := l.drop k
    if (r.takeWhile (fun c => !(c == '/'))).isEmpty then l
    else r.dropWhile (fun c => !(c == '/'))

/-- Everything after the first `/api/` occurrence. -/
def afterFirstApi : List Char → List Char
  | [] => []
  | c :: rest =>
    if apiSeg.isPrefixOf (c :: rest) then rest.drop (apiSeg.length - 1)
    else afterFirstApi rest

/-- The test `url.startsWith('/')`. -/
def isSlashHead : List Char → Bool
  | [] => false
  | c :: _ => c == '/'

/-- Step 1 of the interceptor. -/
def step1 (url : List Char) : List Char :=
  if isSubstr railwayDomain url then removeRailway url else url

/-- Step 2 of the interceptor. -/
def step2 (url : List Char) : List Char :=
  if step2cond url then stripSchemeHost url else url

/-- Step 3 of the interceptor: `'/' + url.replace(/^.*?\/api\//, 'api/')`;
the lazy `^.*?` match exists only when a `/api/` occurrence sits in the
first line, and then stops at the first one. -/
def step3 (url : List Char) : List Char :=
  if isSubstr apiSeg url && !isSlashHead url then
    '/' :: (if isSubstr apiSeg (firstLine url) then chars "api/" ++ afterFirstApi url
            else url)
  else url

/-- The URL the overriding `window.fetch` hands to the original fetch. -/
def interceptURL (url : List Char) : List Char := step3 (step2 (step1 url))

/-- The scheme of the incoming absolute URL. -/
def schemeChars (tls : Bool) : List Char := if tls then httpsScheme else httpScheme

/-! ### Position lemmas for the interceptor's regex scans -/

theorem prefix_get? {p t : List Char} (h : p.isPrefixOf t = true) {i : Nat}
    (hi : i < p.length) : t.get? i = p.get? i := by
  rw [ List.isPrefixOf_iff_prefix] at h
  obtain ⟨u, rfl⟩ := h
  exact List.get?_append hi

/-- In `s ++ /api/ ++ b` the character at index `|s|` is the `/` that
opens `/api/`. -/
theorem get_at_hostLen (s b : List Char) :
    (s ++ (apiSeg ++ b)).get? s.length = some '/' := by
  rw [List.get?_append_right (Nat.le_refl _), Nat.sub_self]
  rw [List.get?_append (by decide : 0 < apiSeg.length)]
  decide

/-- Two consecutive `/` in `s ++ /api/ ++ b` with `/`-free `s` sit either
at the end of `/api/` (second slash opening `b`) or inside `b`. -/
theorem consec_slash {s b : List Char} (hs : '/' ∉ s) {i : Nat}
    (hA : (s ++ (apiSeg ++ b)).get? i = some '/')
    (hB : (s ++ (apiSeg ++ b)).get? (i + 1) = some '/') :
    i = s.length + 4 ∨ s.length + 5 ≤ i := by
  by_cases hlt : i < s.length
  · exact absurd (List.get?_mem (by rw [← List.get?_append hlt]; exact hA)) hs
  · push_neg at hlt
    have hA' : (apiSeg ++ b).get? (i - s.length) = some '/' := by
      rw [← List.get?_append_right hlt]; exact hA
    have hB' : (apiSeg ++ b).get? (i - s.length + 1) = some '/' := by
      rw [show i - s.length + 1 = i + 1 - s.length by omega,
        ← List.get?_append_right (by omega)]
      exact hB
    by_cases hge : 5 ≤ i - s.length
    · right; omega
    · have hj : i - s.length < 5 := by omega
      interval_cases hiv : (i - s.length)
      · rw [List.get?_append (by decide)] at hB'
        exact absurd hB' (by decide)
      · rw [List.get?_append (by decide)] at hA'
        exact absurd hA' (by decide)
      · rw [List.get?_append (by decide)] at hA'
        exact absurd hA' (by decide)
      · rw [List.get?_append (by decide)] at hA'
        exact absurd hA' (by decide)
      · left; omega

/-- None of `http://`, `https://`, nor the two railway-absolute prefixes
can match at a scan position of the form `s ++ /api/ ++ b` with `/`-free
`s`: the host part of the pattern would need a `//` pair that the shape
cannot provide. -/
theorem not_prefix_with_api {s b p : List Char} (hs : '/' ∉ s)
    (hp : p = httpScheme ∨ p = httpRailway ∨ p = httpsScheme ∨ p = httpsRailway) :
    p.isPrefixOf (s ++ (apiSeg ++ b)) = false := by
  by_contra hcon
  have hpre : p.isPrefixOf (s ++ (apiSeg ++ b)) = true := by
    revert hcon
    cases p.isPrefixOf (s ++ (apiSeg ++ b)) <;> simp
  have contra_at : ∀ v : Nat, s.length = v → v < p.length → p.get? v ≠ some '/' → False := by
    intro v hv hvp hne
    have hcontra := get_at_hostLen s b
    rw [prefix_get? hpre (hv ▸ hvp)] at hcontra
    rw [hv] at hcontra
    exact hne hcontra
  rcases hp with rfl | rfl | rfl | rfl
  · have h5 : (s ++ (apiSeg ++ b)).get? 5 = some '/' := by
      rw [prefix_get? hpre (by decide)]; decide
    have h6 : (s ++ (apiSeg ++ b)).get? 6 = some '/' := by
      rw [prefix_get? hpre (by decide)]; decide
    rcases consec_slash hs h5 h6 with h | h
    · exact contra_at 1 (by omega) (by decide) (by decide)
    · exact contra_at 0 (by omega) (by decide) (by decide)
  · have h5 : (s ++ (apiSeg ++ b)).get? 5 = some '/' := by
      rw [prefix_get? hpre (by decide)]; decide
    have h6 : (s ++ (apiSeg ++ b)).get? 6 = some '/' := by
      rw [prefix_get? hpre (by decide)]; decide
    rcases consec_slash hs h5 h6 with h | h
    · exact contra_at 1 (by omega) (by decide) (by decide)
    · exact contra_at 0 (by omega) (by decide) (by decide)
  · have h6 : (s ++ (apiSeg ++ b)).get? 6 = some '/' := by
      rw [prefix_get? hpre (by decide)]; decide
    have h7 : (s ++ (apiSeg ++ b)).get? 7 = some '/' := by
      rw [prefix_get? hpre (by decide)]; decide
    rcases consec_slash hs h6 h7 with h | h
    · exact contra_at 2 (by omega) (by decide) (by decide)
    · have hv : s.length = 0 ∨ s.length = 1 := by omega
      rcases hv with hv | hv
      · exact contra_at 0 hv (by decide) (by decide)
      · exact contra_at 1 hv (by decide) (by decide)
  · have h6 : (s ++ (apiSeg ++ b)).get? 6 = some '/' := by
      rw [prefix_get? hpre (by decide)]; decide
    have h7 : (s ++ (apiSeg ++ b)).get? 7 = some '/' := by
      rw [prefix_get? hpre (by decide)]; decide
    rcases consec_slash hs h6 h7 with h | h
    · exact contra_at 2 (by omega) (by decide) (by decide)
    · have hv : s.length = 0 ∨ s.length = 1 := by omega
      rcases hv with hv | hv
      · exact contra_at 0 hv (by decide) (by decide)
      · exact contra_at 1 hv (by decide) (by decide)

theorem matchesAt_head {t : List Char} (h : matchesAt t = true) :
    t.get? 0 = some 'h' := by
  unfold matchesAt at h
  rw [Bool.or_eq_true] at h
  rcases h with h | h
  · rw [prefix_get? h (by decide)]; decide
  · rw [prefix_get? h (by decide)]; decide

theorem head?_of_get?_zero {l : List Char} {c : Char} (h : l.get? 0 = some c) :
    l.head? = some c := by
  cases l with
  | nil => exact absurd h (by simp)
  | cons x t => simpa using h

/-- A match cannot start inside the `/api/` segment: no suffix of `/api/`
begins with `h`. -/
theorem noMatch_suffix_apiSeg {a₂ b : List Char} (hsuf : a₂ <:+ apiSeg)
    (hne : a₂ ≠ []) : matchesAt (a₂ ++ b) = false := by
  by_contra hcon
  have htrue : matchesAt (a₂ ++ b) = true := by
    revert hcon; cases matchesAt (a₂ ++ b) <;> simp
  have hh := matchesAt_head htrue
  obtain ⟨c, t, rfl⟩ := List.exists_cons_of_ne_nil hne
  rw [List.cons_append] at hh
  have hc : c = 'h' := by simpa using hh
  subst hc
  exact absurd (hsuf.subset (List.mem_cons_self _ t)) (by decide)

/-- A match cannot start strictly inside the scheme: no proper suffix of
`http://` or `https://` begins with `h`. -/
theorem noMatch_suffix_scheme {s z : List Char}
    (htls : s <:+ httpScheme ∨ s <:+ httpsScheme) (hne : s ≠ [])
    (hfull1 : s ≠ httpScheme) (hfull2 : s ≠ httpsScheme) :
    matchesAt (s ++ z) = false := by
  by_contra hcon
  have htrue : matchesAt (s ++ z) = true := by
    revert hcon; cases matchesAt (s ++ z) <;> simp
  have hh := matchesAt_head htrue
  obtain ⟨c, t, rfl⟩ := List.exists_cons_of_ne_nil hne
  rw [List.cons_append] at hh
  have hc : c = 'h' := by simpa using hh
  subst hc
  rcases htls with h | h
  · rw [← List.mem_tails] at h
    have ht : httpScheme.tails =
        [chars "http://", chars "ttp://", chars "tp://", chars "p://",
          chars "://", chars "//", chars "/", []] := by decide
    rw [ht] at h
    simp only [List.mem_cons, List.mem_nil_iff, or_false] at h
    rcases h with h | h | h | h | h | h | h | h
    all_goals first
      | exact hfull1 h
      | exact (List.cons_ne_nil _ _ h).elim
      | (injection h with h1 h2; exact absurd h1 (by decide))
  · rw [← List.mem_tails] at h
    have ht : httpsScheme.tails =
        [chars "https://", chars "ttps://", chars "tps://", chars "ps://",
          chars "s://", chars "://", chars "//", chars "/", []] := by decide
    rw [ht] at h
    simp only [List.mem_cons, List.mem_nil_iff, or_false] at h
    rcases h with h | h | h | h | h | h | h | h | h
    all_goals first
      | exact hfull2 h
      | exact (List.cons_ne_nil _ _ h).elim
      | (injection h with h1 h2; exact absurd h1 (by decide))

theorem suffix_append_cases {a₂ x y : List Char} (h : a₂ <:+ x ++ y) :
    a₂ <:+ y ∨ ∃ s, s <:+ x ∧ a₂ = s ++ y := by
  induction x with
  | nil => exact Or.inl (by simpa using h)
  | cons c x' ih =>
    rw [List.cons_append, List.suffix_cons_iff] at h
    rcases h with rfl | h
    · exact Or.inr ⟨c :: x', List.suffix_refl _, rfl⟩
    · rcases ih h with h' | ⟨s, hs, rfl⟩
      · exact Or.inl h'
      · exact Or.inr ⟨s, List.suffix_cons_iff.mpr (Or.inr hs), rfl⟩

/-- No occurrence of the railway-absolute patterns starts within `a` when
scanning `a ++ b`. -/
def NoMatchIn (a b : List Char) : Prop :=
  ∀ a₂, a₂ <:+ a → a₂ ≠ [] → matchesAt (a₂ ++ b) = false

theorem removeRailwayAux_nil : ∀ fuel, removeRailwayAux fuel [] = []
  | 0 => rfl
  | _ + 1 => rfl

theorem removeRailwayAux_congr :
    ∀ {f₁ : Nat} {l : List Char} (f₂ : Nat), l.length ≤ f₁ → l.length ≤ f₂ →
      removeRailwayAux f₁ l = removeRailwayAux f₂ l := by
  intro f₁
  induction f₁ with
  | zero =>
    intro l f₂ h₁ _
    have : l = [] := List.eq_nil_of_length_eq_zero (by omega)
    subst this
    rw [removeRailwayAux_nil, removeRailwayAux_nil]
  | succ g ih =>
    intro l f₂ h₁ h₂
    cases l with
    | nil => rw [removeRailwayAux_nil, removeRailwayAux_nil]
    | cons c rest =>
      cases f₂ with
      | zero => simp at h₂
      | succ g₂ =>
        show removeRailwayAux (g + 1) (c :: rest) = removeRailwayAux (g₂ + 1) (c :: rest)
        simp only [removeRailwayAux]
        by_cases hc1 : httpsRailway.isPrefixOf (c :: rest) = true
        · rw [if_pos hc1, if_pos hc1]
          exact ih g₂ (by simp at h₁ ⊢; omega) (by simp at h₂ ⊢; omega)
        · rw [if_neg hc1, if_neg hc1]
          by_cases hc2 : httpRailway.isPrefixOf (c :: rest) = true
          · rw [if_pos hc2, if_pos hc2]
            exact ih g₂ (by simp at h₁ ⊢; omega) (by simp at h₂ ⊢; omega)
          · rw [if_neg hc2, if_neg hc2]
            rw [ih g₂ (by simp at h₁; omega) (by simp at h₂; omega)]

/-- The scan walks over a region in which no match can start, keeping it
verbatim. -/
theorem removeRailwayAux_append {a b : List Char} :
    ∀ {fuel : Nat}, a.length + b.length ≤ fuel → NoMatchIn a b →
      removeRailwayAux fuel (a ++ b) = a ++ removeRailwayAux (fuel - a.length) b := by
  induction a with
  | nil =>
    intro fuel _ _
    simp
  | cons c a' ih =>
    intro fuel hfuel hnm
    cases fuel with
    | zero => simp at hfuel
    | succ g =>
      have hm : matchesAt ((c :: a') ++ b) = false :=
        hnm (c :: a') (List.suffix_refl _) (List.cons_ne_nil c a')
      rw [matchesAt, Bool.or_eq_false_iff] at hm
      show removeRailwayAux (g + 1) (c :: (a' ++ b)) = _
      simp only [removeRailwayAux]
      rw [if_neg (by rw [show c :: (a' ++ b) = (c :: a') ++ b from rfl, hm.1]; simp),
        if_neg (by rw [show c :: (a' ++ b) = (c :: a') ++ b from rfl, hm.2]; simp)]
      have hnm' : NoMatchIn a' b := fun a₂ hs hne =>
        hnm a₂ (List.suffix_cons_iff.mpr (Or.inr hs)) hne
      have hlen : a'.length + 1 + b.length ≤ g + 1 := by
        simpa using hfuel
      rw [@ih g (by omega) hnm']
      have harith : g + 1 - (c :: a').length = g - a'.length := by
        simp only [List.length_cons]
        omega
      rw [harith]
      simp

/-- Prefix tests on a shared leading run cancel it. -/
theorem append_isPrefixOf (p q z : List Char) :
    (p ++ q).isPrefixOf (p ++ z) = q.isPrefixOf z := by
  induction p with
  | nil => rfl
  | cons c p' ih => simp [List.isPrefixOf, ih]

theorem isPrefixOf_self_append (p z : List Char) : p.isPrefixOf (p ++ z) = true := by
  rw [ List.isPrefixOf_iff_prefix]
  exact ⟨z, rfl⟩

theorem isSubstr_of_isPrefixOf {p t : List Char} (h : p.isPrefixOf t = true) :
    isSubstr p t = true := by
  cases t with
  | nil =>
    rw [ List.isPrefixOf_iff_prefix] at h
    have : p = [] := List.prefix_nil.mp h
    subst this
    rfl
  | cons c rest => simp [isSubstr, h]

theorem isSubstr_cons_of {p : List Char} {c : Char} {rest : List Char}
    (h : isSubstr p rest = true) : isSubstr p (c :: rest) = true := by
  simp [isSubstr, h]

/-- The pattern `p` occurs inside `x ++ p ++ y`. -/
theorem isSubstr_sandwich (p x y : List Char) : isSubstr p (x ++ (p ++ y)) = true := by
  induction x with
  | nil => exact isSubstr_of_isPrefixOf (isPrefixOf_self_append p y)
  | cons c x' ih => exact isSubstr_cons_of ih

theorem isSubstr_append_of {p a b : List Char} (h : isSubstr p b = true) :
    isSubstr p (a ++ b) = true := by
  induction a with
  | nil => exact h
  | cons c a' ih => exact isSubstr_cons_of ih

/-- A string free of the railway domain is left alone by step 1's scan. -/
theorem removeRailwayAux_no_occurrence :
    ∀ {fuel : Nat} {l : List Char}, l.length ≤ fuel →
      isSubstr railwayDomain l = false → removeRailwayAux fuel l = l := by
  intro fuel
  induction fuel with
  | zero =>
    intro l h _
    have : l = [] := List.eq_nil_of_length_eq_zero (by omega)
    subst this
    rfl
  | succ g ih =>
    intro l hlen hno
    cases l with
    | nil => rfl
    | cons c rest =>
      have hsub : isSubstr railwayDomain rest = false := by
        rw [isSubstr] at hno
        revert hno
        cases isSubstr railwayDomain rest <;> simp
      have hc1 : httpsRailway.isPrefixOf (c :: rest) = false := by
        by_contra hcon
        have htrue : httpsRailway.isPrefixOf (c :: rest) = true := by
          revert hcon; cases httpsRailway.isPrefixOf (c :: rest) <;> simp
        rw [ List.isPrefixOf_iff_prefix] at htrue
        obtain ⟨u, hu⟩ := htrue
        have : isSubstr railwayDomain (c :: rest) = true := by
          rw [← hu, httpsRailway, List.append_assoc]
          exact isSubstr_sandwich _ _ _
        rw [hno] at this
        exact Bool.false_ne_true this
      have hc2 : httpRailway.isPrefixOf (c :: rest) = false := by
        by_contra hcon
        have htrue : httpRailway.isPrefixOf (c :: rest) = true := by
          revert hcon; cases httpRailway.isPrefixOf (c :: rest) <;> simp
        rw [ List.isPrefixOf_iff_prefix] at htrue
        obtain ⟨u, hu⟩ := htrue
        have : isSubstr railwayDomain (c :: rest) = true := by
          rw [← hu, httpRailway, List.append_assoc]
          exact isSubstr_sandwich _ _ _
        rw [hno] at this
        exact Bool.false_ne_true this
      simp only [removeRailwayAux, hc1, hc2, if_false, Bool.false_eq_true]
      rw [ih (by simp at hlen; omega) hsub]

theorem removeRailway_no_occurrence {l : List Char}
    (h : isSubstr railwayDomain l = false) : removeRailway l = l :=
  removeRailwayAux_no_occurrence (Nat.le_refl _) h

theorem httpRailway_not_prefix_https (z : List Char) :
    httpRailway.isPrefixOf (httpsScheme ++ z) = false := by
  by_contra hcon
  have htrue : httpRailway.isPrefixOf (httpsScheme ++ z) = true := by
    revert hcon; cases httpRailway.isPrefixOf (httpsScheme ++ z) <;> simp
  have h4 := prefix_get? htrue (by decide : 4 < httpRailway.length)
  rw [List.get?_append (by decide : 4 < httpsScheme.length)] at h4
  exact absurd h4 (by decide)

theorem httpsRailway_not_prefix_http (z : List Char) :
    httpsRailway.isPrefixOf (httpScheme ++ z) = false := by
  by_contra hcon
  have htrue : httpsRailway.isPrefixOf (httpScheme ++ z) = true := by
    revert hcon; cases httpsRailway.isPrefixOf (httpScheme ++ z) <;> simp
  have h4 := prefix_get? htrue (by decide : 4 < httpsRailway.length)
  rw [List.get?_append (by decide : 4 < httpScheme.length)] at h4
  exact absurd h4 (by decide)

theorem httpsScheme_not_prefix_http (z : List Char) :
    httpsScheme.isPrefixOf (httpScheme ++ z) = false := by
  by_contra hcon
  have htrue : httpsScheme.isPrefixOf (httpScheme ++ z) = true := by
    revert hcon; cases httpsScheme.isPrefixOf (httpScheme ++ z) <;> simp
  have h4 := prefix_get? htrue (by decide : 4 < httpsScheme.length)
  rw [List.get?_append (by decide : 4 < httpScheme.length)] at h4
  exact absurd h4 (by decide)

theorem removeRailwayAux_cons_match_https {f : Nat} {c : Char} {rest : List Char}
    (h : httpsRailway.isPrefixOf (c :: rest) = true) :
    removeRailwayAux (f + 1) (c :: rest) =
      removeRailwayAux f (rest.drop (httpsRailway.length - 1)) := by
  simp only [removeRailwayAux, h, if_true]

theorem removeRailwayAux_cons_match_http {f : Nat} {c : Char} {rest : List Char}
    (h1 : httpsRailway.isPrefixOf (c :: rest) = false)
    (h2 : httpRailway.isPrefixOf (c :: rest) = true) :
    removeRailwayAux (f + 1) (c :: rest) =
      removeRailwayAux f (rest.drop (httpRailway.length - 1)) := by
  simp only [removeRailwayAux, h1, h2, if_true, Bool.false_eq_true, if_false]

/-- The scan consumes a leading `https://domain` occurrence whole. -/
theorem removeRailwayAux_match_https (Z : List Char) (f : Nat) :
    removeRailwayAux (f + 1) (httpsRailway ++ Z) = removeRailwayAux f Z := by
  have hsplit : httpsRailway ++ Z = 'h' :: (httpsRailway.drop 1 ++ Z) := by
    conv_lhs => rw [show httpsRailway = 'h' :: httpsRailway.drop 1 from by decide]
    rfl
  rw [hsplit,
    removeRailwayAux_cons_match_https (by rw [← hsplit]; exact isPrefixOf_self_append _ _)]
  rw [List.drop_left' (by decide : (List.drop 1 httpsRailway).length = httpsRailway.length - 1)]

/-- The scan consumes a leading `http://domain` occurrence whole (the
`https` branch cannot match there). -/
theorem removeRailwayAux_match_http (Z : List Char) (f : Nat) :
    removeRailwayAux (f + 1) (httpRailway ++ Z) = removeRailwayAux f Z := by
  have hsplit : httpRailway ++ Z = 'h' :: (httpRailway.drop 1 ++ Z) := by
    conv_lhs => rw [show httpRailway = 'h' :: httpRailway.drop 1 from by decide]
    rfl
  have hno : httpsRailway.isPrefixOf (httpRailway ++ Z) = false := by
    rw [httpRailway, List.append_assoc]
    exact httpsRailway_not_prefix_http _
  rw [hsplit,
    removeRailwayAux_cons_match_http (by rw [← hsplit]; exact hno)
      (by rw [← hsplit]; exact isPrefixOf_self_append _ _)]
  rw [List.drop_left' (by decide : (List.drop 1 httpRailway).length = httpRailway.length - 1)]

/-- When the domain prefix-matches `host ++ z` with `/`-free `host` and
`z` opening with `/`, the whole domain sits inside `host`. -/
theorem domain_prefix_of_host {host z : List Char} (hz0 : z.get? 0 = some '/')
    (h : railwayDomain.isPrefixOf (host ++ z) = true) :
    railwayDomain <+: host := by
  have hle : railwayDomain.length ≤ host.length := by
    by_contra hlt
    push_neg at hlt
    have h1 := prefix_get? h hlt
    rw [List.get?_append_right (Nat.le_refl _), Nat.sub_self, hz0] at h1
    exact absurd (List.get?_mem h1.symm) (by decide)
  rw [ List.isPrefixOf_iff_prefix] at h
  exact List.prefix_of_prefix_length_le h (List.prefix_append host z) hle

theorem noMatchIn_hostApi {h' rest : List Char} (hh : '/' ∉ h') :
    NoMatchIn (h' ++ apiSeg) rest := by
  intro a₂ hsuf hne
  rcases suffix_append_cases hsuf with hcase | ⟨s, hs, rfl⟩
  · exact noMatch_suffix_apiSeg hcase hne
  · have hs' : '/' ∉ s := fun hmem => hh (hs.subset hmem)
    rw [List.append_assoc]
    unfold matchesAt
    rw [not_prefix_with_api hs' (Or.inr (Or.inr (Or.inr rfl))),
      not_prefix_with_api hs' (Or.inr (Or.inl rfl))]
    rfl

theorem noMatchIn_full {tls : Bool} {host rest : List Char} (hh : '/' ∉ host)
    (h0 : matchesAt ((schemeChars tls ++ (host ++ apiSeg)) ++ rest) = false) :
    NoMatchIn (schemeChars tls ++ (host ++ apiSeg)) rest := by
  intro a₂ hsuf hne
  rcases suffix_append_cases hsuf with hcase | ⟨s, hs, rfl⟩
  · rcases suffix_append_cases hcase with h2 | ⟨s, hs2, rfl⟩
    · exact noMatch_suffix_apiSeg h2 hne
    · have hs' : '/' ∉ s := fun hmem => hh (hs2.subset hmem)
      rw [List.append_assoc]
      unfold matchesAt
      rw [not_prefix_with_api hs' (Or.inr (Or.inr (Or.inr rfl))),
        not_prefix_with_api hs' (Or.inr (Or.inl rfl))]
      rfl
  · by_cases hfull : s = schemeChars tls
    · subst hfull
      exact h0
    · by_cases hnil : s = []
      · subst hnil
        simp only [List.nil_append]
        rw [List.append_assoc]
        unfold matchesAt
        rw [not_prefix_with_api hh (Or.inr (Or.inr (Or.inr rfl))),
          not_prefix_with_api hh (Or.inr (Or.inl rfl))]
        rfl
      · have hsch : s <:+ httpScheme ∨ s <:+ httpsScheme := by
          cases tls with
          | false => exact Or.inl (by simpa [schemeChars] using hs)
          | true => exact Or.inr (by simpa [schemeChars] using hs)
        have hne1 : s ≠ httpScheme := by
          intro hcon
          subst hcon
          cases tls with
          | false => exact hfull (by simp [schemeChars])
          | true =>
            have hcross : httpScheme <:+ httpsScheme := by
              simpa [schemeChars] using hs
            exact absurd hcross (by decide)
        have hne2 : s ≠ httpsScheme := by
          intro hcon
          subst hcon
          cases tls with
          | true => exact hfull (by simp [schemeChars])
          | false =>
            have hcross : httpsScheme <:+ httpScheme := by
              simpa [schemeChars] using hs
            exact absurd hcross (by decide)
        rw [List.append_assoc]
        exact noMatch_suffix_scheme hsch hnil hne1 hne2

/-- The step-1 scan on a URL with no railway-absolute occurrence at the
front: only the tail after `/api/` can lose occurrences. -/
theorem removeRailway_url_no_match0 {tls : Bool} {host rest : List Char}
    (hh : '/' ∉ host)
    (h0 : matchesAt (schemeChars tls ++ (host ++ (apiSeg ++ rest))) = false) :
    removeRailway (schemeChars tls ++ (host ++ (apiSeg ++ rest))) =
      schemeChars tls ++ (host ++ (apiSeg ++ removeRailway rest)) := by
  have hurl : schemeChars tls ++ (host ++ (apiSeg ++ rest)) =
      (schemeChars tls ++ (host ++ apiSeg)) ++ rest := by
    simp [List.append_assoc]
  rw [hurl] at h0 ⊢
  unfold removeRailway
  rw [@removeRailwayAux_append (schemeChars tls ++ (host ++ apiSeg)) rest
    ((schemeChars tls ++ (host ++ apiSeg)) ++ rest).length
    (by simp only [List.length_append]; omega) (noMatchIn_full hh h0)]
  rw [removeRailwayAux_congr rest.length (by simp only [List.length_append]; omega)
    (Nat.le_refl _)]
  simp [List.append_assoc]

/-- The step-1 scan on `https://domain…`: the leading occurrence is
removed and only the tail after `/api/` can lose more. -/
theorem removeRailway_url_match_https {h' rest : List Char} (hh : '/' ∉ h') :
    removeRailway (httpsRailway ++ (h' ++ (apiSeg ++ rest))) =
      h' ++ (apiSeg ++ removeRailway rest) := by
  unfold removeRailway
  rw [show (httpsRailway ++ (h' ++ (apiSeg ++ rest))).length =
      (45 + (h' ++ (apiSeg ++ rest)).length) + 1 from by
    simp [(by decide : httpsRailway.length = 46)]
    omega]
  rw [removeRailwayAux_match_https]
  rw [show h' ++ (apiSeg ++ rest) = (h' ++ apiSeg) ++ rest from
    (List.append_assoc _ _ _).symm]
  rw [@removeRailwayAux_append (h' ++ apiSeg) rest
    (45 + ((h' ++ apiSeg) ++ rest).length)
    (by simp only [List.length_append]; omega) (noMatchIn_hostApi hh)]
  rw [removeRailwayAux_congr rest.length (by simp only [List.length_append]; omega)
    (Nat.le_refl _)]
  simp [List.append_assoc]

/-- The step-1 scan on `http://domain…`. -/
theorem removeRailway_url_match_http {h' rest : List Char} (hh : '/' ∉ h') :
    removeRailway (httpRailway ++ (h' ++ (apiSeg ++ rest))) =
      h' ++ (apiSeg ++ removeRailway rest) := by
  unfold removeRailway
  rw [show (httpRailway ++ (h' ++ (apiSeg ++ rest))).length =
      (44 + (h' ++ (apiSeg ++ rest)).length) + 1 from by
    simp [(by decide : httpRailway.length = 45)]
    omega]
  rw [removeRailwayAux_match_http]
  rw [show h' ++ (apiSeg ++ rest) = (h' ++ apiSeg) ++ rest from
    (List.append_assoc _ _ _).symm]
  rw [@removeRailwayAux_append (h' ++ apiSeg) rest
    (44 + ((h' ++ apiSeg) ++ rest).length)
    (by simp only [List.length_append]; omega) (noMatchIn_hostApi hh)]
  rw [removeRailwayAux_congr rest.length (by simp only [List.length_append]; omega)
    (Nat.le_refl _)]
  simp [List.append_assoc]

/-! ### Steps 2 and 3 on the three post-step-1 shapes -/

theorem firstLine_append_nonl {a z : List Char} (ha : '\n' ∉ a) :
    firstLine (a ++ z) = a ++ firstLine z := by
  unfold firstLine
  rw [List.takeWhile_append_of_pos]
  intro c hc
  simp only [Bool.not_eq_true', beq_eq_false_iff_ne]
  exact fun hcon => ha (hcon ▸ hc)

theorem isPrefixOf_cons_false {p : List Char} {x c : Char} {z : List Char}
    (h : x ≠ c) : (x :: p).isPrefixOf (c :: z) = false := by
  show (x == c && p.isPrefixOf z) = false
  simp [h]

theorem afterFirstApi_append {a b : List Char} (ha : '/' ∉ a) :
    afterFirstApi (a ++ (apiSeg ++ b)) = b := by
  induction a with
  | nil =>
    show afterFirstApi (apiSeg ++ b) = b
    rw [show apiSeg ++ b = '/' :: (chars "api/" ++ b) from rfl]
    simp only [afterFirstApi]
    rw [if_pos (by
      rw [show ('/' :: (chars "api/" ++ b)) = apiSeg ++ b from rfl]
      exact isPrefixOf_self_append _ _)]
    exact List.drop_left' (by decide)
  | cons c a' ih =>
    have hc : c ≠ '/' := fun hcon => ha (hcon ▸ List.mem_cons_self c a')
    show afterFirstApi (c :: (a' ++ (apiSeg ++ b))) = b
    have hpre : apiSeg.isPrefixOf (c :: (a' ++ (apiSeg ++ b))) = false := by
      rw [show apiSeg = '/' :: chars "api/" from rfl]
      exact isPrefixOf_cons_false (Ne.symm hc)
    simp only [afterFirstApi, hpre, Bool.false_eq_true, if_false]
    exact ih (fun hmem => ha (List.mem_cons_of_mem c hmem))

theorem step2_hostish {h' r : List Char} (hh : '/' ∉ h') :
    step2 (h' ++ (apiSeg ++ r)) = h' ++ (apiSeg ++ r) := by
  have h1 : httpsScheme.isPrefixOf (h' ++ (apiSeg ++ r)) = false :=
    not_prefix_with_api hh (Or.inr (Or.inr (Or.inl rfl)))
  have h2 : httpScheme.isPrefixOf (h' ++ (apiSeg ++ r)) = false :=
    not_prefix_with_api hh (Or.inl rfl)
  unfold step2 step2cond schemePrefixLen
  simp [h1, h2]

theorem step3_slash_head {r : List Char} : step3 (apiSeg ++ r) = apiSeg ++ r := by
  unfold step3
  have hsh : isSlashHead (apiSeg ++ r) = true := rfl
  simp [hsh]

theorem step3_hostish {h' r : List Char} (hne : h' ≠ []) (hh : '/' ∉ h')
    (hn : '\n' ∉ h') : step3 (h' ++ (apiSeg ++ r)) = apiSeg ++ r := by
  unfold step3
  have hsub : isSubstr apiSeg (h' ++ (apiSeg ++ r)) = true := isSubstr_sandwich _ _ _
  have hsh : isSlashHead (h' ++ (apiSeg ++ r)) = false := by
    obtain ⟨c, t, rfl⟩ := List.exists_cons_of_ne_nil hne
    have hc : c ≠ '/' := fun hcon => hh (hcon ▸ List.mem_cons_self c t)
    simp [isSlashHead, hc]
  have hfl : isSubstr apiSeg (firstLine (h' ++ (apiSeg ++ r))) = true := by
    rw [firstLine_append_nonl hn, firstLine_append_nonl (by decide : '\n' ∉ apiSeg)]
    exact isSubstr_sandwich _ _ _
  have hafter : afterFirstApi (h' ++ (apiSeg ++ r)) = r := afterFirstApi_append hh
  rw [hsub, hsh]
  simp only [Bool.not_false, Bool.and_true, if_true, hfl, hafter]
  rfl

theorem step2cond_some {l : List Char} {k : Nat} (h : schemePrefixLen l = some k) :
    step2cond l = isSubstr apiSeg (firstLine (l.drop k)) := by
  unfold step2cond
  rw [h]

theorem stripSchemeHost_some {l : List Char} {k : Nat} (h : schemePrefixLen l = some k) :
    stripSchemeHost l =
      if ((l.drop k).takeWhile (fun c => !(c == '/'))).isEmpty then l
      else (l.drop k).dropWhile (fun c => !(c == '/')) := by
  unfold stripSchemeHost
  rw [h]

theorem step2_scheme {tls : Bool} {host rr : List Char} (hne : host ≠ [])
    (hh : '/' ∉ host) (hn : '\n' ∉ host) :
    step2 (schemeChars tls ++ (host ++ (apiSeg ++ rr))) = apiSeg ++ rr := by
  have hhostpass : ∀ c ∈ host, (!(c == '/')) = true := by
    intro c hc
    simp only [Bool.not_eq_true', beq_eq_false_iff_ne]
    exact fun hcon => hh (hcon ▸ hc)
  have hlen : ((schemeChars tls ++ (host ++ (apiSeg ++ rr))).drop
      (schemeChars tls).length) = host ++ (apiSeg ++ rr) :=
    List.drop_left _ _
  have hsp : schemePrefixLen (schemeChars tls ++ (host ++ (apiSeg ++ rr))) =
      some (schemeChars tls).length := by
    cases tls with
    | true =>
      rw [show schemeChars true = httpsScheme from rfl]
      unfold schemePrefixLen
      rw [if_pos (isPrefixOf_self_append _ _)]
    | false =>
      rw [show schemeChars false = httpScheme from rfl]
      unfold schemePrefixLen
      rw [if_neg (by
        rw [httpsScheme_not_prefix_http (host ++ (apiSeg ++ rr))]
        simp)]
      rw [if_pos (isPrefixOf_self_append _ _)]
  have hcond : step2cond (schemeChars tls ++ (host ++ (apiSeg ++ rr))) = true := by
    rw [step2cond_some hsp, hlen, firstLine_append_nonl hn,
      firstLine_append_nonl (by decide : '\n' ∉ apiSeg)]
    exact isSubstr_sandwich _ _ _
  have htake : (host ++ (apiSeg ++ rr)).takeWhile (fun c => !(c == '/')) = host := by
    rw [List.takeWhile_append_of_pos hhostpass]
    rw [show apiSeg ++ rr = '/' :: (chars "api/" ++ rr) from rfl]
    rw [List.takeWhile_cons_of_neg (by simp)]
    simp
  have hdrop : (host ++ (apiSeg ++ rr)).dropWhile (fun c => !(c == '/')) =
      apiSeg ++ rr := by
    rw [List.dropWhile_append_of_pos hhostpass]
    rw [show apiSeg ++ rr = '/' :: (chars "api/" ++ rr) from rfl]
    rw [List.dropWhile_cons_of_neg (by simp)]
  unfold step2
  rw [hcond]
  simp only [if_true]
  rw [stripSchemeHost_some hsp, hlen, htake, hdrop]
  rw [if_neg (by simp [List.isEmpty_iff, hne])]

/-- Claim C10: For every string URL of the form `http://host/api/...` or
`https://host/api/...` handed to the overridden `window.fetch` — `host`
非 empty, free of `/` and newlines — the interceptor dispatches a relative
URL: the scheme and host are stripped (in particular a host starting with
`mosaicmaster-production.up.railway.app`), the result starts with `/` and
carries the `/api/` path, and the only other change is step 1's removal of
embedded `https?://mosaicmaster-production.up.railway.app` occurrences
from the tail (`removeRailway rest`, the identity whenever the tail does
not mention the production domain).  No absolute-origin `/api/` URL ever
reaches the original fetch. -/
theorem fetch_interceptor_relativizes (tls : Bool) (host rest : List Char)
    (h1 : host ≠ []) (h2 : '/' ∉ host) (h3 : '\n' ∉ host) :
    interceptURL (schemeChars tls ++ (host ++ (apiSeg ++ rest))) =
      apiSeg ++ removeRailway rest := by
  unfold interceptURL
  have hz0 : (apiSeg ++ rest).get? 0 = some '/' := by
    rw [List.get?_append (by decide : 0 < apiSeg.length)]
    decide
  by_cases hm : matchesAt (schemeChars tls ++ (host ++ (apiSeg ++ rest))) = true
  · cases tls with
    | true =>
      rw [show schemeChars true = httpsScheme from rfl] at hm ⊢
      have hno : httpRailway.isPrefixOf
          (httpsScheme ++ (host ++ (apiSeg ++ rest))) = false :=
        httpRailway_not_prefix_https _
      have hpre : httpsRailway.isPrefixOf
          (httpsScheme ++ (host ++ (apiSeg ++ rest))) = true := by
        unfold matchesAt at hm
        rw [hno] at hm
        simpa using hm
      have hD : railwayDomain.isPrefixOf (host ++ (apiSeg ++ rest)) = true := by
        rw [httpsRailway] at hpre
        rwa [append_isPrefixOf] at hpre
      obtain ⟨h', hhost⟩ := domain_prefix_of_host hz0 hD
      have hh2 : '/' ∉ h' := fun hmem =>
        h2 (by rw [← hhost]; exact List.mem_append_right _ hmem)
      have hh3 : '\n' ∉ h' := fun hmem =>
        h3 (by rw [← hhost]; exact List.mem_append_right _ hmem)
      have hshape : httpsScheme ++ (host ++ (apiSeg ++ rest)) =
          httpsRailway ++ (h' ++ (apiSeg ++ rest)) := by
        rw [← hhost, httpsRailway]
        simp [List.append_assoc]
      have hincl : isSubstr railwayDomain
          (httpsScheme ++ (host ++ (apiSeg ++ rest))) = true := by
        rw [hshape, httpsRailway, List.append_assoc]
        exact isSubstr_sandwich _ _ _
      have hstep1 : step1 (httpsScheme ++ (host ++ (apiSeg ++ rest))) =
          h' ++ (apiSeg ++ removeRailway rest) := by
        unfold step1
        rw [if_pos hincl, hshape]
        exact removeRailway_url_match_https hh2
      rw [hstep1]
      by_cases hnil : h' = []
      · subst hnil
        rw [step2_hostish (by simp : '/' ∉ ([] : List Char))]
        simp only [List.nil_append]
        exact step3_slash_head
      · rw [step2_hostish hh2]
        exact step3_hostish hnil hh2 hh3
    | false =>
      rw [show schemeChars false = httpScheme from rfl] at hm ⊢
      have hno : httpsRailway.isPrefixOf
          (httpScheme ++ (host ++ (apiSeg ++ rest))) = false :=
        httpsRailway_not_prefix_http _
      have hpre : httpRailway.isPrefixOf
          (httpScheme ++ (host ++ (apiSeg ++ rest))) = true := by
        unfold matchesAt at hm
        rw [hno] at hm
        simpa using hm
      have hD : railwayDomain.isPrefixOf (host ++ (apiSeg ++ rest)) = true := by
        rw [httpRailway] at hpre
        rwa [append_isPrefixOf] at hpre
      obtain ⟨h', hhost⟩ := domain_prefix_of_host hz0 hD
      have hh2 : '/' ∉ h' := fun hmem =>
        h2 (by rw [← hhost]; exact List.mem_append_right _ hmem)
      have hh3 : '\n' ∉ h' := fun hmem =>
        h3 (by rw [← hhost]; exact List.mem_append_right _ hmem)
      have hshape : httpScheme ++ (host ++ (apiSeg ++ rest)) =
          httpRailway ++ (h' ++ (apiSeg ++ rest)) := by
        rw [← hhost, httpRailway]
        simp [List.append_assoc]
      have hincl : isSubstr railwayDomain
          (httpScheme ++ (host ++ (apiSeg ++ rest))) = true := by
        rw [hshape, httpRailway, List.append_assoc]
        exact isSubstr_sandwich _ _ _
      have hstep1 : step1 (httpScheme ++ (host ++ (apiSeg ++ rest))) =
          h' ++ (apiSeg ++ removeRailway rest) := by
        unfold step1
        rw [if_pos hincl, hshape]
        exact removeRailway_url_match_http hh2
      rw [hstep1]
      by_cases hnil : h' = []
      · subst hnil
        rw [step2_hostish (by simp : '/' ∉ ([] : List Char))]
        simp only [List.nil_append]
        exact step3_slash_head
      · rw [step2_hostish hh2]
        exact step3_hostish hnil hh2 hh3
  · rw [Bool.not_eq_true] at hm
    have hstep1 : step1 (schemeChars tls ++ (host ++ (apiSeg ++ rest))) =
        schemeChars tls ++ (host ++ (apiSeg ++ removeRailway rest)) := by
      unfold step1
      by_cases hD : isSubstr railwayDomain
          (schemeChars tls ++ (host ++ (apiSeg ++ rest))) = true
      · rw [if_pos hD]
        exact removeRailway_url_no_match0 h2 hm
      · rw [if_neg hD]
        rw [Bool.not_eq_true] at hD
        have hrest : isSubstr railwayDomain rest = false := by
          by_contra hcon
          rw [Bool.not_eq_false] at hcon
          have habs : isSubstr railwayDomain
              (schemeChars tls ++ (host ++ (apiSeg ++ rest))) = true :=
            isSubstr_append_of (isSubstr_append_of (isSubstr_append_of hcon))
          rw [hD] at habs
          exact Bool.false_ne_true habs
        rw [removeRailway_no_occurrence hrest]
    rw [hstep1, step2_scheme h1 h2 h3]
    exact step3_slash_head

/-- A closed instance of `fetch_interceptor_relativizes`: an absolute
`https://example.com/api/…` URL is dispatched as the relative
`/api/…` URL. -/
theorem fetch_interceptor_relativizes_witness :
    (chars "example.com" ≠ [] ∧ '/' ∉ chars "example.com" ∧
        '\n' ∉ chars "example.com") ∧
      interceptURL (schemeChars true ++
          (chars "example.com" ++ (apiSeg ++ chars "x?q=1"))) =
        apiSeg ++ removeRailway (chars "x?q=1") :=
  ⟨⟨by decide, by decide, by decide⟩,
    fetch_interceptor_relativizes true (chars "example.com") (chars "x?q=1")
      (by decide) (by decide) (by decide)⟩

end Mosaic
